import Mathlib

/-!
Verification development for the git-agent repository.

The core under study is the memory / projection layer
(src/services/memoryService.js), the workflow agents
(src/agent/developmentAgent.js, the file that also holds generateIdea,
planProject and manageRepository), and the scheduler
(src/services/cronScheduler.js).

Modelling conventions, used throughout:
  - JavaScript arrays become Lean lists; object fields that may be null
    or undefined become Option.
  - A LangChain BufferMemory message list (past_steps) is modelled as a
    list in chronological order, oldest message first, which is the
    iteration order of the for..of loops in memoryService.js.
  - The content string of a message is modelled by what the projection
    scans can observe of it: the substring tests it is subjected to, the
    outcome of JSON.parse on it, and the outcomes of the two fixed regex
    salvage matches.  JSON.parse and the regex engine are host functions,
    not repository code, so they enter the model as these observation
    fields; each field is documented with the JavaScript expression it
    stands for.
  - Strings are treated at the level of ASCII code points; the length of
    a Lean String then agrees with the JavaScript length used by the
    source for the strings involved.
  - Functions that can throw in JavaScript return Except; functions whose
    body is wrapped in a catch-all handler that returns a value are total.
-/

namespace GitAgent

/-- A task object as produced by planProject and consumed by
developNextTask (title, description, filePath, priority fields). -/
structure Task where
  title : String
  description : String
  filePath : String
  priority : String
deriving DecidableEq, Repr

/-- A repository reference as stored by saveRepositoryInfo and consumed by
developNextTask ({ name, url }). -/
structure Repo where
  name : String
  url : String
deriving DecidableEq, Repr

/-- The fields that the projection scans of memoryService.js read off a
successfully JSON.parsed message content.  A field is none when the key is
absent from the parsed object or fails the truthiness / Array.isArray
guard applied by the scan that reads it:
  - remainingTasks: parsed.remainingTasks when it is an array
    (an empty array passes the guard, hence some []);
  - projectSpec: parsed.projectSpec when truthy, the payload being the
    JSON string the workflow stores there;
  - repo: parsed.repo when it is an object (the name/url truthiness
    checks of getRepositoryInfo stay in the scan function itself). -/
structure ParsedContent where
  remainingTasks : Option (List Task)
  projectSpec : Option String
  repo : Option Repo
deriving DecidableEq, Repr

/-- One BufferMemory message, modelled by what the scans observe of its
content string:
  - hasRemainingTasks: content.includes of the remainingTasks key name;
  - hasProjectSpec: content.includes of the projectSpec key name;
  - hasRepo / hasName: content.includes of repo and of name;
  - parsed: the result of JSON.parse(content), none when parse throws;
  - regexTasks: the salvage in getRemainingTasks, matching
    remainingTasks.*?\[(.*?)\] and then JSON.parse of the bracketed
    capture; none = the regex does not match, some none = the regex
    matches but the re-parse of the capture throws (which aborts the
    whole scan through the outer catch), some (some ts) = salvage
    succeeds with tasks ts;
  - regexSpec: the salvage in getProjectSpec, the first capture of the
    projectSpec-colon-quote pattern after the two unescaping replaces;
    none = no match. -/
structure StepContent where
  hasRemainingTasks : Bool
  hasProjectSpec : Bool
  hasRepo : Bool
  hasName : Bool
  parsed : Option ParsedContent
  regexTasks : Option (Option (List Task))
  regexSpec : Option String
deriving DecidableEq, Repr

/-- The in-memory projectState of MemoryService (constructor, lines
16-24 of memoryService.js): isInitialized, isCompleted, remainingTasks,
projectSpec, lastUpdated.  remainingTasks is always an array in the
source (the constructor and every writer assign arrays), so it is a
plain list here; projectSpec and lastUpdated can be null. -/
structure ProjectState where
  isInitialized : Bool
  isCompleted : Bool
  remainingTasks : List Task
  projectSpec : Option String
  lastUpdated : Option String
deriving DecidableEq, Repr

/-- The initial projectState installed by the MemoryService constructor:
this is the cold-cache state of the projection. -/
def initialProjectState : ProjectState :=
  { isInitialized := false
    isCompleted := false
    remainingTasks := []
    projectSpec := none
    lastUpdated := none }

/-- JavaScript truthiness of a nullable string: null, undefined and the
empty string are falsy. -/
def strTruthy : Option String → Bool
  | some s => s != ""
  | none => false

namespace MemoryService

/-- The scan loop of getRemainingTasks (memoryService.js lines 240-256),
iterating past_steps oldest first.  Per step: if the content includes the
remainingTasks key, JSON.parse it; on success return parsed.remainingTasks
when it is an array, otherwise continue; on parse failure try the regex
salvage: no match continues, a match whose capture re-parse throws aborts
the whole scan (the enclosing catch drops to the empty-array return), and
a successful salvage is returned. -/
def scanRemainingTasks : List StepContent → Option (List Task)
  | [] => none
  | step :: rest =>
    if step.hasRemainingTasks then
      match step.parsed with
      | some p =>
        match p.remainingTasks with
        | some ts => some ts
        | none => scanRemainingTasks rest
      | none =>
        match step.regexTasks with
        | some (some ts) => some ts
        | some none => none
        | none => scanRemainingTasks rest
    else scanRemainingTasks rest

/-- getRemainingTasks (memoryService.js lines 230-262).  The local-state
guard is the literal source condition
  this.projectState.remainingTasks && this.projectState.remainingTasks.length >= 0
whose first conjunct is array truthiness (constantly true, the field is
always an array) and whose second conjunct is the literal length >= 0
test; when the guard fails the function scans past_steps and defaults to
the empty array. -/
def getRemainingTasks (st : ProjectState) (steps : List StepContent) : List Task :=
  if st.remainingTasks.length ≥ 0 then st.remainingTasks
  else
    match scanRemainingTasks steps with
    | some ts => ts
    | none => []

/-- The scan loop of getProjectSpec (memoryService.js lines 274-289):
per step, if the content includes the projectSpec key, JSON.parse it; on
success return parsed.projectSpec when truthy, else continue; on parse
failure return the regex salvage capture (unescaped) when the pattern
matches, else continue. -/
def scanProjectSpec : List StepContent → Option String
  | [] => none
  | step :: rest =>
    if step.hasProjectSpec then
      match step.parsed with
      | some p =>
        match p.projectSpec with
        | some s => some s
        | none => scanProjectSpec rest
      | none =>
        match step.regexSpec with
        | some s => some s
        | none => scanProjectSpec rest
    else scanProjectSpec rest

/-- getProjectSpec (memoryService.js lines 265-294): return the local
projectSpec when truthy, otherwise scan past_steps; null when nothing is
found. -/
def getProjectSpec (st : ProjectState) (steps : List StepContent) : Option String :=
  if strTruthy st.projectSpec then st.projectSpec
  else scanProjectSpec steps

/-- getRepositoryInfo (memoryService.js lines 141-161): always scans
past_steps (there is no local-state short circuit); per step, if the
content includes both repo and name, JSON.parse it and return parsed.repo
when repo, repo.name and repo.url are all truthy; any other outcome
continues the scan; null when the log is exhausted. -/
def getRepositoryInfo : List StepContent → Option Repo
  | [] => none
  | step :: rest =>
    if step.hasRepo && step.hasName then
      match step.parsed with
      | some p =>
        match p.repo with
        | some r =>
          if r.name != "" && r.url != "" then some r
          else getRepositoryInfo rest
        | none => getRepositoryInfo rest
      | none => getRepositoryInfo rest
    else getRepositoryInfo rest

end MemoryService

/-- A StepContent none of whose observation fields fire: the generic
observation of a saveContext message whose serialized payload neither
contains one of the scanned key names nor parses to an object carrying
one of the scanned keys. -/
def blankStep : StepContent :=
  { hasRemainingTasks := false
    hasProjectSpec := false
    hasRepo := false
    hasName := false
    parsed := some { remainingTasks := none, projectSpec := none, repo := none }
    regexTasks := none
    regexSpec := none }

/-- Observation of the output message written by updateRemainingTasks,
whose content serializes { remainingTasks: updatedTasks }: the
remainingTasks key is present and parses back to the task array.  The
builder takes the generic case where the task texts themselves do not
mention the other scanned key names. -/
def tasksUpdateStep (ts : List Task) : StepContent :=
  { blankStep with
      hasRemainingTasks := true
      parsed := some { remainingTasks := some ts, projectSpec := none, repo := none } }

/-- Observation of the input message written by updateRemainingTasks,
whose content serializes { remainingTasks: "update" }: the key name is
present but the parsed field is the string update, which fails the
Array.isArray guard of the scan. -/
def tasksUpdateInputStep : StepContent :=
  { blankStep with hasRemainingTasks := true }

/-- Observation of the two messages written by saveTaskProgress for a
task title and a status (the generic case where neither string mentions a
scanned key name). -/
def taskProgressSteps (_title _status : String) : List StepContent :=
  [blankStep, blankStep]

/-- Observation of the two messages written by saveProjectCompletion
({ project: "status" } / { status: "complete", completedAt }). -/
def completionSteps : List StepContent :=
  [blankStep, blankStep]

/-- The full memory of a MemoryService instance: the in-memory
projectState cache plus the BufferMemory message list (oldest first). -/
structure Memory where
  state : ProjectState
  steps : List StepContent
deriving Repr

namespace MemoryService

/-- markProjectCompleted (memoryService.js lines 86-90): set isCompleted
and lastUpdated on the local state; no message is appended and no
notification is sent (the body only logs to the console). -/
def markProjectCompleted (st : ProjectState) (now : String) : ProjectState :=
  { st with isCompleted := true, lastUpdated := some now }

/-- The number of notifications sent by markProjectCompleted: its body
contains no call to the notification service. -/
def markProjectCompletedNotifications : Nat := 0

/-- saveProjectCompletion (memoryService.js lines 71-83): set isCompleted
and lastUpdated, and append the completion messages to the log. -/
def saveProjectCompletion (m : Memory) (now : String) : Memory :=
  { state := { m.state with isCompleted := true, lastUpdated := some now }
    steps := m.steps ++ completionSteps }

/-- saveTaskProgress (memoryService.js lines 93-105): append the progress
messages to the log; the local projectState fields are untouched. -/
def saveTaskProgress (m : Memory) (title status : String) : Memory :=
  { m with steps := m.steps ++ taskProgressSteps title status }

/-- updateRemainingTasks (memoryService.js lines 163-183): overwrite the
local remainingTasks and lastUpdated, append the update messages to the
log, and, when the updated list is empty, mark the project completed via
markProjectCompleted. -/
def updateRemainingTasks (m : Memory) (updated : List Task) (now : String) : Memory :=
  let m1 : Memory :=
    { state := { m.state with remainingTasks := updated, lastUpdated := some now }
      steps := m.steps ++ [tasksUpdateInputStep, tasksUpdateStep updated] }
  if updated.length = 0 then
    { m1 with state := markProjectCompleted m1.state now }
  else m1

end MemoryService

/-! String machinery shared by the slug and path pipelines of
developmentAgent.js, modelled over lists of characters. -/

/-- The whitespace class of the JavaScript regexes and of trim, restricted
to the ASCII range of the model. -/
def isJsSpace (c : Char) : Bool :=
  c == ' ' || c == '\t' || c == '\n' || c == '\r' || c == '\x0b' || c == '\x0c'

/-- Lowercase ASCII letter or digit. -/
def isLowerAlnum (c : Char) : Bool :=
  ('a' ≤ c && c ≤ 'z') || ('0' ≤ c && c ≤ '9')

/-- The character class kept by the slug strip replace, the complement of
the character class caret a-z 0-9 whitespace hyphen. -/
def isSlugKeep (c : Char) : Bool :=
  isLowerAlnum c || isJsSpace c || c == '-'

/-- Worker for a global replace of maximal nonempty p-runs by the single
character rep; the flag records whether the previous character was part
of a run. -/
def collapseRunsAux (p : Char → Bool) (rep : Char) : List Char → Bool → List Char
  | [], _ => []
  | c :: cs, inRun =>
    if p c then
      if inRun then collapseRunsAux p rep cs true
      else rep :: collapseRunsAux p rep cs true
    else c :: collapseRunsAux p rep cs false

/-- Global replace of every maximal nonempty run of p-characters by the
single character rep (the shape of the \s+ and -+ and slash-run replaces
in developmentAgent.js). -/
def collapseRuns (p : Char → Bool) (rep : Char) (l : List Char) : List Char :=
  collapseRunsAux p rep l false

/-- Drop one leading occurrence of the character c, the effect of an
anchored non-global replace of a single leading character. -/
def dropOneLeading (c : Char) : List Char → List Char
  | [] => []
  | x :: xs => if x == c then xs else x :: xs

/-- Drop one trailing occurrence of the character c. -/
def dropOneTrailing (c : Char) (l : List Char) : List Char :=
  (dropOneLeading c l.reverse).reverse

/-- Drop the leading and the trailing maximal p-run, the effect of the
global anchored-alternation replaces in developmentAgent.js. -/
def dropEdgeRuns (p : Char → Bool) (l : List Char) : List Char :=
  ((l.dropWhile p).reverse.dropWhile p).reverse

/-- JavaScript trim, restricted to the ASCII whitespace of the model. -/
def jsTrim (l : List Char) : List Char :=
  dropEdgeRuns isJsSpace l

/-- Does the pattern occur at the head of the text. -/
def seqAt : List Char → List Char → Bool
  | [], _ => true
  | _ :: _, [] => false
  | p :: ps, c :: cs => p == c && seqAt ps cs

/-- Does the pattern occur anywhere in the text. -/
def containsSeq (pat : List Char) : List Char → Bool
  | [] => pat.isEmpty
  | c :: cs => seqAt pat (c :: cs) || containsSeq pat cs

/-- Case-insensitive containment of a fixed lowercase phrase, the effect
of an i-flagged literal regex test. -/
def lowerContains (text phrase : String) : Bool :=
  containsSeq phrase.toList (text.toList.map Char.toLower)

/-- The repository name slug of manageRepository (developmentAgent.js
lines 662-668): lowercase the spec title, strip every character outside
lowercase letters, digits, whitespace and hyphen, replace whitespace runs
by a hyphen, collapse hyphen runs, drop one leading and one trailing
hyphen, and cut to the first 100 characters. -/
def repoSlug (title : String) : String :=
  let l1 := title.toList.map Char.toLower
  let l2 := l1.filter isSlugKeep
  let l3 := collapseRuns isJsSpace '-' l2
  let l4 := collapseRuns (fun c => c == '-') '-' l3
  let l5 := dropOneTrailing '-' (dropOneLeading '-' l4)
  String.mk (l5.take 100)

/-- The slug pipeline before the 100-character cap: the view of repoSlug
used to reason about the cap separately. -/
def repoSlugCore (title : String) : List Char :=
  dropOneTrailing '-' (dropOneLeading '-'
    (collapseRuns (fun c => c == '-') '-'
      (collapseRuns isJsSpace '-'
        ((title.toList.map Char.toLower).filter isSlugKeep))))

/-- Does the list contain two adjacent characters both satisfying p (used
to state the no-duplicate-hyphen and no-duplicate-slash properties). -/
def hasAdjPair (p : Char → Bool) : List Char → Bool
  | x :: y :: rest => (p x && p y) || hasAdjPair p (y :: rest)
  | _ => false

/-- Whether x and the head of m form an adjacent p-pair. -/
def headPair (p : Char → Bool) (x : Char) (m : List Char) : Bool :=
  match m.head? with
  | some y => p x && p y
  | none => false

/-- Whether the last element of l and a form an adjacent p-pair. -/
def edgePair (p : Char → Bool) (l : List Char) (a : Char) : Bool :=
  match l.getLast? with
  | some x => p x && p a
  | none => false

/-- Slash test for the path pipeline. -/
def isSlash (c : Char) : Bool := c == '/'

/-- Does the list end with a slash. -/
def endsWithSlash (l : List Char) : Bool :=
  match l.reverse with
  | '/' :: _ => true
  | _ => false

/-- normalizeFilePath (developmentAgent.js lines 27-63).  In source
order: drop the leading slash run (anchored replace), collapse slash runs
globally, drop a single leading dot-slash (anchored non-global replace),
trim; map directory-like paths (trailing slash, or exactly root, frontend
or backend) to their index or main file; append the .js fallback
extension when the path contains no dot at all; collapse slash runs
again and drop the leading and trailing slash runs; if the result is
empty fall back to a name derived from the task title. -/
def normalizeFilePath (filePath taskTitle : String) : String :=
  let p1 := filePath.toList.dropWhile isSlash
  let p2 := collapseRuns isSlash '/' p1
  let p3 := match p2 with
            | '.' :: '/' :: rest => rest
            | l => l
  let p4 := jsTrim p3
  let p5 :=
    if endsWithSlash p4 || p4 == "root".toList || p4 == "frontend".toList
        || p4 == "backend".toList then
      if p4 == "root".toList || p4 == ([] : List Char) then "src/main.js".toList
      else if p4 == "frontend".toList then "frontend/src/main.js".toList
      else if p4 == "backend".toList then "backend/src/main.js".toList
      else dropOneTrailing '/' p4 ++ "/index.js".toList
    else p4
  let p6 := if p5.contains '.' then p5 else p5 ++ ".js".toList
  let p7 := collapseRuns isSlash '/' p6
  let p8 := dropEdgeRuns isSlash p7
  if p8.length = 0 then
    String.mk ("src/".toList
      ++ collapseRuns isJsSpace '-' (taskTitle.toList.map Char.toLower)
      ++ ".js".toList)
  else String.mk p8

/-! The development agent (developNextTask, developmentAgent.js lines
65-360).  The external collaborators (the language model, the GitHub
client, the notification service) enter the model as an environment
record whose fields describe the outcome of each call site. -/

/-- The plan object handed to developNextTask by the workflow
({ tasks: remainingTasks }). -/
structure Plan where
  tasks : List Task
deriving DecidableEq, Repr

/-- The explanatory-phrase check of developNextTask (lines 174-190): a
fixed list of case-insensitive literal patterns tested against the
generated content. -/
def hasNonCodePattern (content : String) : Bool :=
  lowerContains content "since the task does not require"
    || lowerContains content "no code will be generated"
    || lowerContains content "this task involves"
    || lowerContains content "the following code"
    || lowerContains content "here is the code"
    || lowerContains content "explanation"
    || lowerContains content "description"

/-- Task selection of developNextTask (lines 106-123): the head of the
remaining tasks from memory when nonempty, else the head of the plan
tasks when nonempty, else none (the completion branch). -/
def selectCurrentTask (remaining : List Task) (plan : Plan) : Option Task :=
  match remaining with
  | t :: _ => some t
  | [] =>
    match plan.tasks with
    | t :: _ => some t
    | [] => none

/-- Outcome of the getContent sha lookup (lines 236-252): the file
exists with a sha, or the host answers 404 (create path), or the call
fails with another status, which the source re-raises. -/
inductive ShaLookup where
  | found (sha : String)
  | missing
  | failure (status : Nat) (msg : String)
deriving DecidableEq, Repr

/-- The workflow state slice consumed by developNextTask: projectSpec (a
JSON string), plan and repo, each nullable as far as validateState is
concerned. -/
structure DevInput where
  projectSpec : Option String
  plan : Option Plan
  repo : Option Repo
deriving Repr

/-- Environment of one developNextTask run: the outcome of each external
call site, in the order the source reaches them.
  - specParses: whether JSON.parse(state.projectSpec) succeeds;
  - content: the generated artifact after the code-fence cleanup;
  - retryContent: the artifact produced by the stricter retry prompt,
    after the same cleanup;
  - shaLookup: the getContent outcome;
  - commit: the createOrUpdateFileContents outcome, the error carrying
    the host message;
  - hasToken: whether GITHUB_TOKEN is present;
  - now: the timestamp used for the memory writes. -/
structure DevEnv where
  specParses : Bool
  content : String
  retryContent : String
  shaLookup : ShaLookup
  commit : Except String Unit
  hasToken : Bool
  now : String
deriving Repr

/-- Result value of a completed developNextTask run. -/
inductive DevResult where
  | completedNoTasks
  | committed (currentTask : String) (remainingCount : Nat)
      (path : String) (content : String) (message : String)
deriving DecidableEq, Repr

/-- One developNextTask run: the returned value or the propagated error,
the memory after all side effects, and the notifications attempted. -/
structure DevRun where
  result : Except String DevResult
  mem : Memory
  notices : List String
deriving Repr

/-- The outer catch of developNextTask (lines 349-359): log, append the
ERROR/failed progress entry to memory, and re-throw the error. -/
def devFail (m : Memory) (notices : List String) (msg : String) : DevRun :=
  { result := .error msg
    mem := MemoryService.saveTaskProgress m "ERROR" "failed"
    notices := notices }

/-- validateState(state, [projectSpec, plan, repo]) (lines 18-24 and
68): fails when any of the three fields is falsy. -/
def validateDevState (input : DevInput) : Option (String × Plan × Repo) :=
  match input.projectSpec, input.plan, input.repo with
  | some s, some p, some r => if s == "" then none else some (s, p, r)
  | _, _, _ => none

/-- developNextTask (developmentAgent.js lines 65-360), translated in
source order: validate the state fields; parse the projectSpec; validate
the repository (rejecting the mock-repo fallback); read the remaining
tasks from memory and select the current task, completing the project
when there is none; clean and sanity-check the generated content,
retrying once with the stricter prompt when it looks like prose and is
short; normalize the target path; look up the existing sha; commit; on
commit success record progress, remove every remaining task carrying the
completed title, auto-complete on an empty queue, and return the result;
any thrown error reaches the outer catch, which appends a failure entry
and re-throws. -/
def developNextTask (m : Memory) (input : DevInput) (env : DevEnv) : DevRun :=
  match validateDevState input with
  | none => devFail m [] "Missing required fields"
  | some (_specStr, plan, repo) =>
    if !env.specParses then devFail m [] "Invalid projectSpec or plan JSON"
    else if repo.name == "" || repo.url == "" || repo.name == "mock-repo" then
      devFail m [] "No valid repository found"
    else
      let remainingTasks := MemoryService.getRemainingTasks m.state m.steps
      match selectCurrentTask remainingTasks plan with
      | none =>
        { result := .ok .completedNoTasks
          mem := MemoryService.saveProjectCompletion m env.now
          notices := [] }
      | some currentTask =>
        if env.content == "" || env.content.length < 10 then
          devFail m [] "Generated content is too short - likely not actual code"
        else
          let codeContent :=
            if hasNonCodePattern env.content && env.content.length < 200 then
              env.retryContent
            else env.content
          let fullPath := normalizeFilePath currentTask.filePath currentTask.title
          if !env.hasToken then
            devFail m [] "GITHUB_TOKEN not found in environment variables"
          else
            match env.shaLookup with
            | .failure _ msg => devFail m [] msg
            | _ =>
              match env.commit with
              | .error cmsg =>
                devFail m ["error-notification"] ("GitHub commit failed: " ++ cmsg)
              | .ok _ =>
                let m1 := MemoryService.saveTaskProgress m currentTask.title "completed"
                let updated := remainingTasks.filter
                  (fun t => t.title != currentTask.title)
                let m2 := MemoryService.updateRemainingTasks m1 updated env.now
                let m3 :=
                  if updated.length = 0 then
                    { m2 with state := MemoryService.markProjectCompleted m2.state env.now }
                  else m2
                { result := .ok (.committed currentTask.title updated.length fullPath
                    codeContent ("feat: implement " ++ currentTask.title))
                  mem := m3
                  notices := ["commit-notification", "task-completion-notification"]
                  }

/-! The setup-cycle agents (generateIdea, planProject, manageRepository)
from the agents file of the repository, and the scheduler.  A JSON string
payload produced by one agent and parsed by the next is modelled by its
parsed value. -/

/-- The project specification payload produced by generateIdea (the JSON
shape of its prompt and of its fallback). -/
structure SpecPayload where
  title : String
  type : String
  complexity : String
  techStack : List String
  features : List String
  timeline : String
  description : String
  targetAudience : String
deriving DecidableEq, Repr

/-- The plan payload produced by planProject (the JSON shape of its
prompt and of its fallback). -/
structure PlanPayload where
  tasks : List Task
  timeline : String
  dependencies : List String
  milestones : List String
  riskFactors : List String
deriving DecidableEq, Repr

/-- The workflow state slice threaded through the setup agents. -/
structure GenState where
  projectName : Option String
  description : Option String
  complexity : String
  techConstraints : List String
  projectSpec : Option SpecPayload
  plan : Option PlanPayload
  repo : Option Repo
deriving Repr

/-- JavaScript string-or-default: the logical-or against a default,
where null, undefined and the empty string are falsy. -/
def jsOr (o : Option String) (d : String) : String :=
  match o with
  | some s => if s == "" then d else s
  | none => d

/-- Outcome of the model call of generateIdea: a spec parsed from valid
JSON output, or a thrown invoke error, or output that fails the JSON
validation. -/
inductive IdeaOutcome where
  | modelSpec (spec : SpecPayload)
  | invokeError (msg : String)
  | badJson
deriving Repr

/-- The deterministic fallback spec of generateIdea (lines 544-556),
built from the request: the requested name or Random Project, Web App,
the requested complexity, the requested constraints (an array is always
truthy, so the or-default never fires on it), fixed features and
timeline, and a description echoing the request. -/
def generateIdeaFallbackSpec (st : GenState) : SpecPayload :=
  { title := jsOr st.projectName "Random Project"
    type := "Web App"
    complexity := st.complexity
    techStack := st.techConstraints
    features := ["Feature 1", "Feature 2"]
    timeline := "2 weeks"
    description := jsOr st.description
      (match st.projectName with
       | some n =>
         if n == "" then "Fallback project due to error"
         else "Fallback project for " ++ n ++ " due to error"
       | none => "Fallback project due to error")
    targetAudience := "Developers" }

/-- generateIdea (lines 489-558): everything, including the complexity
validation, runs inside a catch-all that answers the fallback spec, so
the function always returns a state whose projectSpec is set and never
throws. -/
def generateIdea (st : GenState) (env : IdeaOutcome) : GenState :=
  if st.complexity == "" then { st with projectSpec := some (generateIdeaFallbackSpec st) }
  else
    match env with
    | .modelSpec spec => { st with projectSpec := some spec }
    | _ => { st with projectSpec := some (generateIdeaFallbackSpec st) }

/-- Outcome of the model call of planProject. -/
inductive PlanOutcome where
  | modelPlan (plan : PlanPayload)
  | invokeError (msg : String)
  | badJson
deriving Repr

/-- The deterministic fallback plan of planProject (lines 623-633): an
empty task list with fixed scaffolding. -/
def planProjectFallback : PlanPayload :=
  { tasks := []
    timeline := "1 week"
    dependencies := []
    milestones := []
    riskFactors := [] }

/-- planProject (lines 560-634): the projectSpec validation and the
model call run inside a catch-all that answers the fallback plan, so the
function always returns a state whose plan is set and never throws. -/
def planProject (st : GenState) (env : PlanOutcome) : GenState :=
  match st.projectSpec, env with
  | some _, .modelPlan p => { st with plan := some p }
  | _, _ => { st with plan := some planProjectFallback }

/-- The fallback repository reference of manageRepository. -/
def mockRepo : Repo := { name := "mock-repo", url := "http://mock-repo.com" }

/-- Outcome of the repos.get existence check of manageRepository (lines
691-714): the repository exists, or the host answers 404 (create path),
or the call fails with another status, which the inner handler
re-raises. -/
inductive RepoGet where
  | found (r : Repo)
  | missing
  | failure (status : Nat) (msg : String)
deriving Repr

/-- Environment of one manageRepository run, one field per external call
site in source order. -/
structure RepoEnv where
  hasToken : Bool
  parseFails : Bool
  repoGet : RepoGet
  repoCreate : Except String Repo
  readme : Except String String
  readmeShaLookup : ShaLookup
  readmePut : Except String Unit
deriving Repr

/-- The create-or-reuse resolution of manageRepository: the existing
repository, or the newly created one on 404; none when the lookup fails
with another status or the creation throws (both propagate to the outer
catch). -/
def resolveRepo (env : RepoEnv) : Option Repo :=
  match env.repoGet with
  | .found r => some r
  | .missing =>
    match env.repoCreate with
    | .ok r => some r
    | .error _ => none
  | .failure _ _ => none

/-- manageRepository (lines 636-750).  The whole body runs inside a
catch-all handler (lines 743-749) that returns the mock-repo fallback,
so the function never throws: a missing or unparseable projectSpec, a
missing token, a non-404 lookup failure, a creation failure, a README
generation failure after its three attempts, a non-404 README sha lookup
failure and a README commit failure all produce the mock-repo fallback;
only the fully successful path returns the real repository reference. -/
def manageRepository (st : GenState) (env : RepoEnv) : GenState :=
  match st.projectSpec with
  | none => { st with repo := some mockRepo }
  | some spec =>
    if !env.hasToken then { st with repo := some mockRepo }
    else if env.parseFails then { st with repo := some mockRepo }
    else
      let _repoName := repoSlug spec.title
      match resolveRepo env with
      | none => { st with repo := some mockRepo }
      | some r =>
        match env.readme with
        | .error _ => { st with repo := some mockRepo }
        | .ok _ =>
          match env.readmeShaLookup with
          | .failure _ _ => { st with repo := some mockRepo }
          | _ =>
            match env.readmePut with
            | .error _ => { st with repo := some mockRepo }
            | .ok _ => { st with repo := some { name := r.name, url := r.url } }

/-! The scheduler (cronScheduler.js). -/

/-- The mutable scheduler state: the running flag and the names of the
registered jobs (the Map keys). -/
structure SchedState where
  isRunning : Bool
  jobs : List String
deriving DecidableEq, Repr

/-- Map.set on the job map, keyed by job name. -/
def mapSet (k : String) (l : List String) : List String :=
  if l.contains k then l else l ++ [k]

namespace CronScheduler

/-- start (cronScheduler.js lines 13-96): a no-op when already running;
otherwise validate the schedule (a validation failure is re-thrown by
the outer handler before any mutation), register the dailyDevelopment
job and set the running flag. -/
def start (s : SchedState) (scheduleValid : Bool) : Except String SchedState :=
  if s.isRunning then .ok s
  else if !scheduleValid then .error "Invalid schedule"
  else .ok { isRunning := true, jobs := mapSet "dailyDevelopment" s.jobs }

/-- stop (lines 99-116): stop and clear every job and reset the running
flag. -/
def stop (_s : SchedState) : SchedState :=
  { isRunning := false, jobs := [] }

/-- Outcome of triggerManualCycle, recording the scheduler state at the
moment the development cycle is invoked (when it is). -/
inductive TriggerOutcome where
  | startFailed (msg : String)
  | alreadyCompleted (after : SchedState)
  | ranCycle (schedAtRun : SchedState)
deriving DecidableEq, Repr

/-- triggerManualCycle (lines 128-153): when the scheduler is not
running, start it first (a start failure propagates through the catch
and the cycle never runs); then short-circuit when the project is
completed; otherwise invoke runDailyCycle with the scheduler in its
current state. -/
def triggerManualCycle (s : SchedState) (scheduleValid : Bool)
    (isCompleted : Bool) : TriggerOutcome :=
  match (if !s.isRunning then start s scheduleValid else .ok s) with
  | .error e => .startFailed e
  | .ok s1 =>
    if isCompleted then .alreadyCompleted s1
    else .ranCycle s1

end CronScheduler

/-! Per-step extraction views of the projection scans, and concrete data
used in witnesses. -/

/-- What a single step contributes to the projectSpec scan: the payload
the loop body of getProjectSpec would return for this step, none when
the loop would continue. -/
def stepSpecYield (step : StepContent) : Option String :=
  if step.hasProjectSpec then
    match step.parsed with
    | some p => p.projectSpec
    | none => step.regexSpec
  else none

/-- What a single step contributes to the repository scan: the payload
the loop body of getRepositoryInfo would return for this step, none when
the loop would continue. -/
def stepRepoYield (step : StepContent) : Option Repo :=
  if step.hasRepo && step.hasName then
    match step.parsed with
    | some p =>
      match p.repo with
      | some r => if r.name != "" && r.url != "" then some r else none
      | none => none
    | none => none
  else none

/-- Observation of a message whose content serializes a saved projectSpec
(the output message of saveProjectPlan): it contains the projectSpec key
and parses back to an object with that spec string. -/
def specSavedStep (s : String) : StepContent :=
  { blankStep with
      hasProjectSpec := true
      parsed := some { remainingTasks := none, projectSpec := some s, repo := none } }

/-- Observation of the output message of saveRepositoryInfo, whose
content serializes { repo, timestamp }. -/
def repoSavedStep (r : Repo) : StepContent :=
  { blankStep with
      hasRepo := true
      hasName := true
      parsed := some { remainingTasks := none, projectSpec := none, repo := some r } }

/-- Observation of a truncated spec entry, for instance the content
consisting of an opening brace, the quoted projectSpec key, a colon and
the quoted fragment x with the closing brace missing: it contains the
projectSpec key, JSON.parse throws on it, and the salvage regex captures
the fragment x. -/
def malformedSpecStep : StepContent :=
  { blankStep with
      hasProjectSpec := true
      parsed := none
      regexSpec := some "x" }

/-- Observation of a malformed entry that mentions the projectSpec key
but offers the salvage regex no quoted fragment (for instance a
truncation cutting through the value before its closing quote):
JSON.parse throws and the regex finds no match. -/
def unsalvageableSpecStep : StepContent :=
  { blankStep with
      hasProjectSpec := true
      parsed := none
      regexSpec := none }

/-- A concrete task used in witnesses. -/
def sampleTask : Task :=
  { title := "Set up project scaffolding"
    description := "Create the base directory layout"
    filePath := "src/index"
    priority := "high" }

/-- A second concrete task, with a title distinct from sampleTask. -/
def sampleTask2 : Task :=
  { title := "Implement the API layer"
    description := "Add the HTTP routes"
    filePath := "src/api"
    priority := "medium" }

/-- A concrete task sharing its title with sampleTask but differing in
its other fields, for the duplicate-title scenario. -/
def sampleTaskDup : Task :=
  { title := "Set up project scaffolding"
    description := "Duplicate entry produced by the planner"
    filePath := "src/scaffold"
    priority := "low" }

/-- A concrete repository reference used in witnesses. -/
def sampleRepo : Repo :=
  { name := "my-cool-app-20", url := "https://github.com/u/my-cool-app-20" }

/-- A concrete memory used in the development-cycle witnesses: an active
project whose queue holds sampleTask, sampleTaskDup and sampleTask2 in
that order. -/
def devMemW : Memory :=
  { state :=
      { isInitialized := true
        isCompleted := false
        remainingTasks := [sampleTask, sampleTaskDup, sampleTask2]
        projectSpec := some "spec-json"
        lastUpdated := some "t0" }
    steps := [specSavedStep "spec-json", tasksUpdateStep [sampleTask, sampleTaskDup, sampleTask2]] }

/-- The workflow input of the development-cycle witnesses. -/
def devInputW : DevInput :=
  { projectSpec := some "spec-json"
    plan := some { tasks := [sampleTask, sampleTaskDup, sampleTask2] }
    repo := some sampleRepo }

/-- A development environment whose commit is rejected by the host with
a conflict. -/
def devEnvConflictW : DevEnv :=
  { specParses := true
    content := "export const app = () => 42;"
    retryContent := "export const app = () => 43;"
    shaLookup := .found "abc123"
    commit := .error "409 conflict"
    hasToken := true
    now := "t1" }

/-- A development environment whose commit succeeds. -/
def devEnvOkW : DevEnv :=
  { devEnvConflictW with commit := .ok () }

/-- A concrete spec payload used in the setup-cycle witnesses. -/
def specPayloadW : SpecPayload :=
  { title := "My Cool App!! 2.0"
    type := "Web App"
    complexity := "Beginner"
    techStack := ["Node.js"]
    features := ["Feature 1"]
    timeline := "2 weeks"
    description := "A demo application"
    targetAudience := "Developers" }

/-- A concrete setup-cycle state carrying that spec. -/
def genStateW : GenState :=
  { projectName := some "My Cool App!! 2.0"
    description := none
    complexity := "beginner"
    techConstraints := ["Node.js"]
    projectSpec := some specPayloadW
    plan := none
    repo := none }

/-- A repository environment whose existence check fails with a non-404
status (every later call site would succeed). -/
def repoEnvFailW : RepoEnv :=
  { hasToken := true
    parseFails := false
    repoGet := .failure 500 "server error"
    repoCreate := .ok sampleRepo
    readme := .ok "generated readme"
    readmeShaLookup := .missing
    readmePut := .ok () }

/-- The development input produced by a setup cycle that fell back to
the mock repository. -/
def devInputMockW : DevInput :=
  { devInputW with repo := some mockRepo }

/-- A memory describing an already-completed project with an empty
queue, used in the completion-idempotence witness. -/
def completedMemW : Memory :=
  { state :=
      { isInitialized := true
        isCompleted := true
        remainingTasks := []
        projectSpec := some "spec-json"
        lastUpdated := some "t0" }
    steps := [] }

/-! Theorems.  Each claim of the specification is settled by exactly one
theorem below; shared facts are proved as helper lemmas first. -/

/-- The local-state guard of getRemainingTasks is the always-true test
length >= 0, so the function returns the in-memory queue on every input
and the log scan below the guard is unreachable. -/
theorem getRemainingTasks_local (st : ProjectState) (steps : List StepContent) :
    MemoryService.getRemainingTasks st steps = st.remainingTasks := by
  simp [MemoryService.getRemainingTasks]

/-- One unfolding of the projectSpec scan through the per-step view. -/
theorem scanProjectSpec_cons (step : StepContent) (rest : List StepContent) :
    MemoryService.scanProjectSpec (step :: rest)
      = (match stepSpecYield step with
         | some s => some s
         | none => MemoryService.scanProjectSpec rest) := by
  rcases step with ⟨hrt, hps, hr, hn, parsed, rt, rs⟩
  cases hps <;> rcases parsed with _ | ⟨prt, pps, pr⟩ <;>
    simp [MemoryService.scanProjectSpec, stepSpecYield]

/-- One unfolding of the repository scan through the per-step view. -/
theorem getRepositoryInfo_cons (step : StepContent) (rest : List StepContent) :
    MemoryService.getRepositoryInfo (step :: rest)
      = (match stepRepoYield step with
         | some r => some r
         | none => MemoryService.getRepositoryInfo rest) := by
  rcases step with ⟨hrt, hps, hr, hn, parsed, rt, rs⟩
  rcases parsed with _ | ⟨prt, pps, pr⟩
  · cases hr <;> cases hn <;> simp [MemoryService.getRepositoryInfo, stepRepoYield]
  · rcases pr with _ | r
    · cases hr <;> cases hn <;> simp [MemoryService.getRepositoryInfo, stepRepoYield]
    · by_cases h1 : r.name = "" <;> by_cases h2 : r.url = "" <;>
        cases hr <;> cases hn <;>
        simp [MemoryService.getRepositoryInfo, stepRepoYield, h1, h2]

/-- The projectSpec scan returns the payload of the first step whose
per-step view yields one, regardless of what follows it. -/
theorem scanProjectSpec_first (pre : List StepContent) (a : StepContent)
    (post : List StepContent) (s : String)
    (hpre : ∀ x ∈ pre, stepSpecYield x = none)
    (ha : stepSpecYield a = some s) :
    MemoryService.scanProjectSpec (pre ++ a :: post) = some s := by
  induction pre with
  | nil => simp [scanProjectSpec_cons, ha]
  | cons y ys ih =>
    have hy : stepSpecYield y = none := hpre y (by simp)
    have : ∀ x ∈ ys, stepSpecYield x = none := fun x hx => hpre x (by simp [hx])
    simp [scanProjectSpec_cons, hy, ih this]

/-- The repository scan returns the payload of the first step whose
per-step view yields one, regardless of what follows it. -/
theorem getRepositoryInfo_first (pre : List StepContent) (a : StepContent)
    (post : List StepContent) (r : Repo)
    (hpre : ∀ x ∈ pre, stepRepoYield x = none)
    (ha : stepRepoYield a = some r) :
    MemoryService.getRepositoryInfo (pre ++ a :: post) = some r := by
  induction pre with
  | nil => simp [getRepositoryInfo_cons, ha]
  | cons y ys ih =>
    have hy : stepRepoYield y = none := hpre y (by simp)
    have : ∀ x ∈ ys, stepRepoYield x = none := fun x hx => hpre x (by simp [hx])
    simp [getRepositoryInfo_cons, hy, ih this]

/-- Cons characterization of hasAdjPair through the head of the tail. -/
theorem hasAdjPair_cons (p : Char → Bool) (x : Char) (m : List Char) :
    hasAdjPair p (x :: m) = (headPair p x m || hasAdjPair p m) := by
  cases m <;> simp [hasAdjPair, headPair]

/-- The tail of an adjacent-pair-free list is adjacent-pair-free. -/
theorem hasAdjPair_tail (p : Char → Bool) (x : Char) (m : List Char)
    (h : hasAdjPair p (x :: m) = false) : hasAdjPair p m = false := by
  rw [hasAdjPair_cons] at h
  exact (Bool.or_eq_false_iff.mp h).2

/-- Concat characterization of hasAdjPair through the last element. -/
theorem hasAdjPair_append_singleton (p : Char → Bool) (l : List Char) (a : Char) :
    hasAdjPair p (l ++ [a]) = (hasAdjPair p l || edgePair p l a) := by
  induction l with
  | nil => simp [hasAdjPair, edgePair]
  | cons x t ih =>
    cases t with
    | nil => simp [hasAdjPair, edgePair]
    | cons y ts =>
      have h2 : edgePair p (x :: y :: ts) a = edgePair p (y :: ts) a := by
        simp [edgePair]
      calc hasAdjPair p ((x :: y :: ts) ++ [a])
          = ((p x && p y) || hasAdjPair p ((y :: ts) ++ [a])) := by
            simp only [List.cons_append, List.append_eq, hasAdjPair]
        _ = ((p x && p y) || (hasAdjPair p (y :: ts) || edgePair p (y :: ts) a)) := by
            rw [ih]
        _ = (((p x && p y) || hasAdjPair p (y :: ts)) || edgePair p (y :: ts) a) := by
            rw [Bool.or_assoc]
        _ = (hasAdjPair p (x :: y :: ts) || edgePair p (x :: y :: ts) a) := by
            rw [h2]
            simp only [hasAdjPair]

/-- Every element of a collapsed list is the replacement character or an
element of the input not satisfying p. -/
theorem collapseRunsAux_mem (p : Char → Bool) (rep : Char) (l : List Char) :
    ∀ (b : Bool) (x : Char), x ∈ collapseRunsAux p rep l b →
      x = rep ∨ (x ∈ l ∧ p x = false) := by
  induction l with
  | nil => intro b x h; simp [collapseRunsAux] at h
  | cons c cs ih =>
    intro b x h
    by_cases hpc : p c = true
    · cases b <;> simp only [collapseRunsAux, hpc, if_true] at h
      · rcases List.mem_cons.mp h with rfl | h2
        · exact Or.inl rfl
        · rcases ih true x h2 with h3 | ⟨h4, h5⟩
          · exact Or.inl h3
          · exact Or.inr ⟨List.mem_cons_of_mem c h4, h5⟩
      · rcases ih true x h with h3 | ⟨h4, h5⟩
        · exact Or.inl h3
        · exact Or.inr ⟨List.mem_cons_of_mem c h4, h5⟩
    · have hpc2 : p c = false := by simpa using hpc
      cases b <;> simp only [collapseRunsAux, hpc2, Bool.false_eq_true, if_false] at h <;>
        · rcases List.mem_cons.mp h with rfl | h2
          · exact Or.inr ⟨List.mem_cons_self x cs, hpc2⟩
          · rcases ih false x h2 with h3 | ⟨h4, h5⟩
            · exact Or.inl h3
            · exact Or.inr ⟨List.mem_cons_of_mem c h4, h5⟩

/-- Elements of the input not satisfying p survive collapsing. -/
theorem collapseRunsAux_mem_of (p : Char → Bool) (rep : Char) (l : List Char) :
    ∀ (b : Bool) (x : Char), x ∈ l → p x = false →
      x ∈ collapseRunsAux p rep l b := by
  induction l with
  | nil => intro b x h; simp at h
  | cons c cs ih =>
    intro b x hx hpx
    rcases List.mem_cons.mp hx with rfl | h2
    · cases b <;> simp [collapseRunsAux, hpx]
    · by_cases hpc : p c = true
      · cases b <;> simp only [collapseRunsAux, hpc, if_true]
        · exact List.mem_cons_of_mem rep (ih true x h2 hpx)
        · exact ih true x h2 hpx
      · have hpc2 : p c = false := by simpa using hpc
        cases b <;> simp only [collapseRunsAux, hpc2, Bool.false_eq_true, if_false] <;>
          exact List.mem_cons_of_mem c (ih false x h2 hpx)

/-- When the replacement character itself satisfies p, a collapsed list
has no adjacent p-pair, and a collapse started inside a run (flag true)
never begins with a p-character. -/
theorem collapseRunsAux_noAdj (p : Char → Bool) (rep : Char)
    (l : List Char) :
    ∀ b : Bool,
      (∀ x, (collapseRunsAux p rep l true).head? = some x → p x = false)
    ∧ hasAdjPair p (collapseRunsAux p rep l b) = false := by
  induction l with
  | nil =>
    intro b
    constructor
    · intro x h; simp [collapseRunsAux] at h
    · cases b <;> simp [collapseRunsAux, hasAdjPair]
  | cons c cs ih =>
    intro b
    by_cases hpc : p c = true
    · refine ⟨?_, ?_⟩
      · simp only [collapseRunsAux, hpc, if_true]
        exact (ih true).1
      · cases b <;>
          simp only [collapseRunsAux, hpc, if_true, Bool.false_eq_true, if_false]
        · rw [hasAdjPair_cons]
          have hh : headPair p rep (collapseRunsAux p rep cs true) = false := by
            unfold headPair
            cases hhd : (collapseRunsAux p rep cs true).head? with
            | none => rfl
            | some y => simp [(ih true).1 y hhd]
          simp [hh, (ih true).2]
        · exact (ih true).2
    · have hpc2 : p c = false := by simpa using hpc
      refine ⟨?_, ?_⟩
      · simp only [collapseRunsAux, hpc2, Bool.false_eq_true, if_false]
        intro x h
        simp only [List.head?_cons, Option.some.injEq] at h
        rw [← h]
        exact hpc2
      · cases b <;> simp only [collapseRunsAux, hpc2, Bool.false_eq_true, if_false] <;>
          · rw [hasAdjPair_cons]
            have hh : headPair p c (collapseRunsAux p rep cs false) = false := by
              unfold headPair
              cases hhd : (collapseRunsAux p rep cs false).head? with
              | none => rfl
              | some y => simp [hpc2]
            simp [hh, (ih false).2]

/-- Elements survive dropping one leading occurrence of another
character. -/
theorem dropOneLeading_mem (c : Char) (l : List Char) (x : Char)
    (hx : x ∈ l) (hne : x ≠ c) : x ∈ dropOneLeading c l := by
  cases l with
  | nil => simp at hx
  | cons h t =>
    by_cases hh : h == c
    · simp only [dropOneLeading, hh, if_true]
      rcases List.mem_cons.mp hx with rfl | h2
      · exact absurd (by simpa using hh) hne
      · exact h2
    · simpa only [dropOneLeading, hh, Bool.false_eq_true, if_false] using hx

/-- dropOneLeading only removes elements. -/
theorem dropOneLeading_subset (c : Char) (l : List Char) (x : Char)
    (hx : x ∈ dropOneLeading c l) : x ∈ l := by
  cases l with
  | nil => simp [dropOneLeading] at hx
  | cons h t =>
    by_cases hh : h == c
    · simp only [dropOneLeading, hh, if_true] at hx
      exact List.mem_cons_of_mem h hx
    · simp only [dropOneLeading, hh, Bool.false_eq_true, if_false] at hx
      exact hx

/-- Elements survive dropping one trailing occurrence of another
character. -/
theorem dropOneTrailing_mem (c : Char) (l : List Char) (x : Char)
    (hx : x ∈ l) (hne : x ≠ c) : x ∈ dropOneTrailing c l := by
  unfold dropOneTrailing
  rw [List.mem_reverse]
  exact dropOneLeading_mem c l.reverse x (List.mem_reverse.mpr hx) hne

/-- dropOneTrailing only removes elements. -/
theorem dropOneTrailing_subset (c : Char) (l : List Char) (x : Char)
    (hx : x ∈ dropOneTrailing c l) : x ∈ l := by
  unfold dropOneTrailing at hx
  rw [List.mem_reverse] at hx
  exact List.mem_reverse.mp (dropOneLeading_subset c l.reverse x hx)

/-- dropOneTrailing drops the last element exactly when it is the given
character. -/
theorem dropOneTrailing_eq (c : Char) (l : List Char) :
    dropOneTrailing c l = if l.getLast? = some c then l.dropLast else l := by
  unfold dropOneTrailing
  cases hr : l.reverse with
  | nil =>
    have hl : l = [] := List.reverse_eq_nil_iff.mp hr
    subst hl
    simp [dropOneLeading]
  | cons z zs =>
    have hlz : l.getLast? = some z := by
      rw [← List.head?_reverse, hr, List.head?_cons]
    have hl : l = zs.reverse ++ [z] := by
      have := congrArg List.reverse hr
      simpa using this
    by_cases hz : z == c
    · have hzc : z = c := by simpa using hz
      subst hzc
      rw [hlz]
      simp only [if_pos rfl, dropOneLeading, hz, if_true]
      rw [hl, List.dropLast_concat]
    · have hzc : ¬ (l.getLast? = some c) := by
        rw [hlz]
        intro h
        exact absurd (by simpa using (Option.some.injEq z c ▸ h)) (by simpa using hz)
      rw [if_neg hzc]
      simp only [dropOneLeading, hz, Bool.false_eq_true, if_false]
      rw [← hr, List.reverse_reverse]

/-- After dropping one leading occurrence of c from a list with no
adjacent matching pair, the head no longer equals c. -/
theorem dropOneLeading_head_not (c : Char) (l : List Char)
    (hAdj : hasAdjPair (fun z => z == c) l = false) :
    ∀ x, (dropOneLeading c l).head? = some x → (x == c) = false := by
  cases l with
  | nil => intro x h; simp [dropOneLeading] at h
  | cons h t =>
    by_cases hh : h == c
    · intro x hx
      rw [dropOneLeading, if_pos hh] at hx
      cases t with
      | nil => simp at hx
      | cons y ys =>
        rw [List.head?_cons, Option.some.injEq] at hx
        subst hx
        simp only [hasAdjPair, Bool.or_eq_false_iff, Bool.and_eq_false_iff] at hAdj
        rcases hAdj.1 with h1 | h1
        · exact absurd hh (by simp [h1])
        · exact h1
    · intro x hx
      rw [dropOneLeading, if_neg hh, List.head?_cons, Option.some.injEq] at hx
      subst hx
      simpa using hh

/-- In a list with no adjacent p-pair whose last element satisfies p,
the last element of dropLast does not satisfy p. -/
theorem dropLast_getLast_not (p : Char → Bool) (l : List Char) (a : Char)
    (hAdj : hasAdjPair p l = false) (hlast : l.getLast? = some a)
    (hpa : p a = true) :
    ∀ x, l.dropLast.getLast? = some x → p x = false := by
  induction l using List.reverseRecOn with
  | nil => simp at hlast
  | append_singleton l' b _ih =>
    rw [List.getLast?_concat] at hlast
    have hba : b = a := by simpa using hlast
    subst hba
    rw [List.dropLast_concat]
    intro x hx
    rw [hasAdjPair_append_singleton] at hAdj
    have hedge : edgePair p l' b = false := (Bool.or_eq_false_iff.mp hAdj).2
    unfold edgePair at hedge
    rw [hx] at hedge
    rcases Bool.and_eq_false_iff.mp hedge with h1 | h1
    · exact h1
    · exact absurd hpa (by simp [h1])

/-- The dropLast of an adjacent-pair-free list is adjacent-pair-free. -/
theorem hasAdjPair_dropLast (p : Char → Bool) (l : List Char)
    (hAdj : hasAdjPair p l = false) : hasAdjPair p l.dropLast = false := by
  induction l using List.reverseRecOn with
  | nil => simpa using hAdj
  | append_singleton l' b _ih =>
    rw [List.dropLast_concat]
    rw [hasAdjPair_append_singleton] at hAdj
    exact (Bool.or_eq_false_iff.mp hAdj).1

/-- The head survives dropLast whenever dropLast is nonempty. -/
theorem head?_dropLast (l : List Char) (x : Char)
    (h : l.dropLast.head? = some x) : l.head? = some x := by
  cases l with
  | nil => simp at h
  | cons y t =>
    cases t with
    | nil => simp at h
    | cons z ts =>
      rw [show (y :: z :: ts).dropLast = y :: (z :: ts).dropLast from rfl,
        List.head?_cons] at h
      rw [List.head?_cons]
      exact h

/-- dropOneLeading preserves freedom from adjacent p-pairs. -/
theorem hasAdjPair_dropOneLeading (p : Char → Bool) (c : Char) (l : List Char)
    (h : hasAdjPair p l = false) : hasAdjPair p (dropOneLeading c l) = false := by
  cases l with
  | nil => simpa [dropOneLeading] using h
  | cons x t =>
    by_cases hx : x == c
    · rw [dropOneLeading, if_pos hx]
      exact hasAdjPair_tail p x t h
    · rw [dropOneLeading, if_neg hx]
      exact h

/-- dropOneTrailing preserves freedom from adjacent p-pairs. -/
theorem hasAdjPair_dropOneTrailing (p : Char → Bool) (c : Char) (l : List Char)
    (h : hasAdjPair p l = false) : hasAdjPair p (dropOneTrailing c l) = false := by
  rw [dropOneTrailing_eq]
  by_cases hc : l.getLast? = some c
  · rw [if_pos hc]
    exact hasAdjPair_dropLast p l h
  · rw [if_neg hc]
    exact h

/-- The head of a dropWhile result never satisfies the predicate. -/
theorem head?_dropWhile_not (p : Char → Bool) (l : List Char) :
    ∀ x, (l.dropWhile p).head? = some x → p x = false := by
  induction l with
  | nil => intro x h; simp at h
  | cons c cs ih =>
    intro x h
    by_cases hc : p c
    · rw [List.dropWhile_cons_of_pos hc] at h
      exact ih x h
    · rw [List.dropWhile_cons_of_neg hc] at h
      rw [List.head?_cons, Option.some.injEq] at h
      subst h
      simpa using hc

/-- The head of a list with its leading and trailing p-runs removed never
satisfies the predicate. -/
theorem dropEdgeRuns_head_not (p : Char → Bool) (l : List Char) :
    ∀ x, (dropEdgeRuns p l).head? = some x → p x = false := by
  intro x hx
  unfold dropEdgeRuns at hx
  have hA : l.dropWhile p
      = ((l.dropWhile p).reverse.dropWhile p).reverse
        ++ ((l.dropWhile p).reverse.takeWhile p).reverse := by
    have h1 : (l.dropWhile p).reverse.takeWhile p
        ++ (l.dropWhile p).reverse.dropWhile p = (l.dropWhile p).reverse :=
      List.takeWhile_append_dropWhile p (l.dropWhile p).reverse
    have h2 := congrArg List.reverse h1
    rw [List.reverse_append, List.reverse_reverse] at h2
    exact h2.symm
  have hAx : (l.dropWhile p).head? = some x := by
    rw [hA, List.head?_append, hx]
    rfl
  exact head?_dropWhile_not p l x hAx

/-- A lowercase letter or digit is not JavaScript whitespace. -/
theorem alnum_not_space (c : Char) (h : isLowerAlnum c = true) :
    isJsSpace c = false := by
  cases hc : isJsSpace c with
  | false => rfl
  | true =>
    exfalso
    simp only [isJsSpace, Bool.or_eq_true, beq_iff_eq] at hc
    rcases hc with ((((rfl | rfl) | rfl) | rfl) | rfl) | rfl <;>
      exact absurd h (by decide)

/-- A lowercase letter or digit is not a hyphen. -/
theorem alnum_not_hyphen (c : Char) (h : isLowerAlnum c = true) :
    (c == '-') = false := by
  cases hc : (c == '-') with
  | false => rfl
  | true =>
    exfalso
    have : c = '-' := by simpa using hc
    subst this
    exact absurd h (by decide)

/-- The registered key is always a member after Map.set. -/
theorem mapSet_mem (k : String) (l : List String) : k ∈ mapSet k l := by
  by_cases h : k ∈ l <;> simp [mapSet, h]

/-- The registered key is always present after Map.set. -/
theorem mapSet_contains (k : String) (l : List String) :
    (mapSet k l).contains k = true := by
  simp [mapSet_mem]

/-- C1, counterexample: a cold-cache log holding an earlier and a later
well-formed projectSpec entry.  The projection yields the earlier one,
because the scans of memoryService.js iterate past_steps in chronological
order and return the first match; the claimed most-recent-first,
last-writer-wins policy therefore fails. -/
theorem c1_counterexample :
    MemoryService.getProjectSpec initialProjectState
        [specSavedStep "spec-v1", specSavedStep "spec-v2"] = some "spec-v1"
  ∧ MemoryService.getProjectSpec initialProjectState
        [specSavedStep "spec-v1", specSavedStep "spec-v2"] ≠ some "spec-v2" := by
  constructor <;> decide

/-- C1, amended: with a cold cache, getProjectSpec and getRepositoryInfo
scan the log oldest-first and return the payload of the first
successfully-parsed matching entry, regardless of later entries
(first-writer-wins); getRemainingTasks never consults the log at all,
because its local-state guard, the always-true length >= 0 test, returns
the in-memory queue on every input. -/
theorem c1_projection_first_writer_wins :
    (∀ st steps, MemoryService.getRemainingTasks st steps = st.remainingTasks)
  ∧ (∀ steps, MemoryService.getProjectSpec initialProjectState steps
        = MemoryService.scanProjectSpec steps)
  ∧ (∀ pre a post s, (∀ x ∈ pre, stepSpecYield x = none) →
        stepSpecYield a = some s →
        MemoryService.scanProjectSpec (pre ++ a :: post) = some s)
  ∧ (∀ pre a post r, (∀ x ∈ pre, stepRepoYield x = none) →
        stepRepoYield a = some r →
        MemoryService.getRepositoryInfo (pre ++ a :: post) = some r) := by
  refine ⟨getRemainingTasks_local, ?_, scanProjectSpec_first, getRepositoryInfo_first⟩
  intro steps
  simp [MemoryService.getProjectSpec, strTruthy, initialProjectState]

/-- Witness for the amended C1 at concrete inputs: a blank step followed
by a saved spec and a later saved spec yields the first saved spec, and
a blank step followed by a saved repository yields that repository. -/
theorem c1_projection_first_writer_wins_witness :
    MemoryService.scanProjectSpec
        ([blankStep] ++ specSavedStep "spec-v1" :: [specSavedStep "spec-v2"])
        = some "spec-v1"
  ∧ MemoryService.getRepositoryInfo
        ([blankStep] ++ repoSavedStep sampleRepo :: []) = some sampleRepo :=
  ⟨c1_projection_first_writer_wins.2.2.1 [blankStep] (specSavedStep "spec-v1")
      [specSavedStep "spec-v2"] "spec-v1" (by decide) (by decide),
   c1_projection_first_writer_wins.2.2.2 [blankStep] (repoSavedStep sampleRepo)
      [] sampleRepo (by decide) (by decide)⟩

/-- C4: with a cold cache (the constructor state) and a log holding
exactly one task-queue-update entry with one task, getRemainingTasks
returns the empty queue, not that task: its guard, the length >= 0 test
on the always-present local array, short-circuits the recovery scan on
every input.  The second conjunct shows the scan below the guard would
have recovered the saved task, so the spec describes the unreachable
branch the source itself carries. -/
theorem c4_cold_cache_recovery_fails :
    MemoryService.getRemainingTasks initialProjectState
        [tasksUpdateStep [sampleTask]] = []
  ∧ MemoryService.scanRemainingTasks [tasksUpdateStep [sampleTask]]
        = some [sampleTask] := by
  constructor <;> decide

/-- C5, counterexample: a malformed spec entry from which the salvage
regex can still capture a quoted fragment (for instance a truncated
object whose projectSpec value keeps its closing quote) is not skipped:
scanned before the well-formed entry, its fragment is returned instead
of the well-formed spec. -/
theorem c5_counterexample :
    MemoryService.getProjectSpec initialProjectState
        [malformedSpecStep, specSavedStep "good-spec"] = some "x"
  ∧ (some "x" : Option String) ≠ some "good-spec" := by
  constructor <;> decide

/-- C5, amended: parsing a malformed entry never throws, and a malformed
entry from which nothing can be salvaged (JSON.parse fails and the
fragment regex finds no match) is skipped, scanning continuing; for
every log of one such entry interleaved with one well-formed projectSpec
entry, in either order, the cold-cache projection yields the well-formed
spec. -/
theorem c5_tolerant_scan (m w : StepContent) (s : String)
    (hparse : m.parsed = none) (hregex : m.regexSpec = none)
    (hw : stepSpecYield w = some s) :
    MemoryService.getProjectSpec initialProjectState [m, w] = some s
  ∧ MemoryService.getProjectSpec initialProjectState [w, m] = some s := by
  have hm : stepSpecYield m = none := by
    simp [stepSpecYield, hparse, hregex]
  constructor <;>
    simp [MemoryService.getProjectSpec, strTruthy, initialProjectState,
      scanProjectSpec_cons, hm, hw]

/-- Witness for the amended C5: an unsalvageable malformed entry next to
a well-formed entry, in both orders. -/
theorem c5_tolerant_scan_witness :
    MemoryService.getProjectSpec initialProjectState
        [unsalvageableSpecStep, specSavedStep "good-spec"] = some "good-spec"
  ∧ MemoryService.getProjectSpec initialProjectState
        [specSavedStep "good-spec", unsalvageableSpecStep] = some "good-spec" :=
  c5_tolerant_scan unsalvageableSpecStep (specSavedStep "good-spec") "good-spec"
    (by decide) (by decide) (by decide)

/-- C6: on a state already completed with an empty queue, applying the
completion transition again leaves it completed with the queue still
empty, re-applying it is absorbed (idempotence), the queue-driven
variant through updateRemainingTasks with the empty list ends in the
same completed, empty configuration, and the transition performs no
notification at all, hence at most one. -/
theorem c6_idempotent_completion (m : Memory) (n1 n2 : String)
    (_hC : m.state.isCompleted = true) (hQ : m.state.remainingTasks = []) :
    (MemoryService.markProjectCompleted m.state n1).isCompleted = true
  ∧ (MemoryService.markProjectCompleted m.state n1).remainingTasks = []
  ∧ MemoryService.markProjectCompleted (MemoryService.markProjectCompleted m.state n1) n2
      = MemoryService.markProjectCompleted m.state n2
  ∧ (MemoryService.updateRemainingTasks m [] n1).state.isCompleted = true
  ∧ (MemoryService.updateRemainingTasks m [] n1).state.remainingTasks = []
  ∧ MemoryService.markProjectCompletedNotifications ≤ 1 := by
  refine ⟨?_, ?_, ?_, ?_, ?_, ?_⟩ <;>
    simp [MemoryService.markProjectCompleted, MemoryService.updateRemainingTasks,
      MemoryService.markProjectCompletedNotifications, hQ]

/-- Witness for C6 on a concrete completed memory. -/
theorem c6_idempotent_completion_witness :
    (MemoryService.markProjectCompleted completedMemW.state "t1").isCompleted = true
  ∧ (MemoryService.markProjectCompleted completedMemW.state "t1").remainingTasks = []
  ∧ MemoryService.markProjectCompleted
        (MemoryService.markProjectCompleted completedMemW.state "t1") "t2"
      = MemoryService.markProjectCompleted completedMemW.state "t2"
  ∧ (MemoryService.updateRemainingTasks completedMemW [] "t1").state.isCompleted = true
  ∧ (MemoryService.updateRemainingTasks completedMemW [] "t1").state.remainingTasks = []
  ∧ MemoryService.markProjectCompletedNotifications ≤ 1 :=
  c6_idempotent_completion completedMemW "t1" "t2" (by decide) (by decide)

/-- C2: in a development cycle whose commit is rejected by the host, the
cycle records a failure entry (the ERROR/failed progress write of the
outer catch), propagates a commit-failure error to its caller, leaves
the remaining-task queue unchanged (no task is dequeued), and the task
selection of the next cycle picks the same head task again. -/
theorem c2_commit_failure_preserves_queue (m : Memory) (input : DevInput)
    (env : DevEnv) (sstr : String) (plan : Plan) (repo : Repo) (t : Task)
    (rest : List Task) (cmsg : String)
    (hval : validateDevState input = some (sstr, plan, repo))
    (hsp : env.specParses = true)
    (hrepo : (repo.name == "" || repo.url == "" || repo.name == "mock-repo") = false)
    (hq : m.state.remainingTasks = t :: rest)
    (hcontent : (env.content == "" || env.content.length < 10) = false)
    (htok : env.hasToken = true)
    (hsha : ∀ st msg, env.shaLookup ≠ ShaLookup.failure st msg)
    (hcom : env.commit = .error cmsg) :
    (developNextTask m input env).result
        = .error ("GitHub commit failed: " ++ cmsg)
  ∧ (developNextTask m input env).mem.state.remainingTasks
        = m.state.remainingTasks
  ∧ (developNextTask m input env).mem.steps
        = m.steps ++ taskProgressSteps "ERROR" "failed"
  ∧ selectCurrentTask
        (MemoryService.getRemainingTasks (developNextTask m input env).mem.state
          (developNextTask m input env).mem.steps) plan = some t := by
  have hdev : developNextTask m input env
      = devFail m ["error-notification"] ("GitHub commit failed: " ++ cmsg) := by
    unfold developNextTask
    rw [hval]
    rcases hsl : env.shaLookup with sha | _ | ⟨st, msg⟩
    · simp [hsp, hrepo, getRemainingTasks_local, hq, selectCurrentTask,
        hcontent, htok, hsl, hcom]
    · simp [hsp, hrepo, getRemainingTasks_local, hq, selectCurrentTask,
        hcontent, htok, hsl, hcom]
    · exact absurd hsl (hsha st msg)
  rw [hdev]
  refine ⟨rfl, rfl, rfl, ?_⟩
  simp [devFail, MemoryService.saveTaskProgress, getRemainingTasks_local, hq,
    selectCurrentTask]

/-- Witness for C2: the concrete active memory, input and
conflict-rejected environment. -/
theorem c2_commit_failure_preserves_queue_witness :
    (developNextTask devMemW devInputW devEnvConflictW).result
        = .error ("GitHub commit failed: " ++ "409 conflict")
  ∧ (developNextTask devMemW devInputW devEnvConflictW).mem.state.remainingTasks
        = devMemW.state.remainingTasks
  ∧ (developNextTask devMemW devInputW devEnvConflictW).mem.steps
        = devMemW.steps ++ taskProgressSteps "ERROR" "failed"
  ∧ selectCurrentTask
        (MemoryService.getRemainingTasks
          (developNextTask devMemW devInputW devEnvConflictW).mem.state
          (developNextTask devMemW devInputW devEnvConflictW).mem.steps)
        { tasks := [sampleTask, sampleTaskDup, sampleTask2] } = some sampleTask :=
  c2_commit_failure_preserves_queue devMemW devInputW devEnvConflictW
    "spec-json" { tasks := [sampleTask, sampleTaskDup, sampleTask2] } sampleRepo
    sampleTask [sampleTaskDup, sampleTask2] "409 conflict"
    (by decide) (by decide) (by decide) (by decide) (by decide) (by decide)
    (by intro st msg h; simp [devEnvConflictW] at h) (by rfl)

/-- C3, counterexample: a repository-management step whose existence
check fails with a non-404 status does not re-raise past the step: the
outer handler of manageRepository returns the mock-repo fallback
instead, refuting the claimed propagation. -/
theorem c3_counterexample :
    (manageRepository genStateW repoEnvFailW).repo = some mockRepo
  ∧ mockRepo ≠ sampleRepo := by
  constructor <;> decide

/-- C3, amended: spec-generation and plan-generation failures are
absorbed into deterministic fallbacks, and repository-management
failures are ALSO absorbed at the step boundary: every error raised
inside the step other than the missing-repository case (which triggers
creation) reaches only the step's own catch-all handler, which returns
the mock-repo fallback instead of re-raising; the failure surfaces one
cycle later, when the development cycle rejects the mock repository as
invalid. -/
theorem c3_repo_failures_absorbed (st : GenState) (env : RepoEnv)
    (envI : IdeaOutcome) (envP : PlanOutcome) (spec : SpecPayload)
    (status : Nat) (msg : String)
    (hspec : st.projectSpec = some spec)
    (htok : env.hasToken = true) (hpf : env.parseFails = false)
    (hget : env.repoGet = .failure status msg)
    (hidea : ∀ s, envI ≠ .modelSpec s)
    (hplan : ∀ p, envP ≠ .modelPlan p) :
    manageRepository st env = { st with repo := some mockRepo }
  ∧ generateIdea st envI = { st with projectSpec := some (generateIdeaFallbackSpec st) }
  ∧ planProject st envP = { st with plan := some planProjectFallback }
  ∧ (∀ m input envD sstr plan,
        validateDevState input = some (sstr, plan, mockRepo) →
        envD.specParses = true →
        (developNextTask m input envD).result = .error "No valid repository found") := by
  refine ⟨?_, ?_, ?_, ?_⟩
  · simp [manageRepository, hspec, htok, hpf, resolveRepo, hget]
  · rcases envI with s | msg2 | _
    · exact absurd rfl (hidea s)
    · by_cases hc : st.complexity == "" <;> simp [generateIdea, hc]
    · by_cases hc : st.complexity == "" <;> simp [generateIdea, hc]
  · rcases envP with p | msg2 | _
    · exact absurd rfl (hplan p)
    · cases hs : st.projectSpec <;> simp [planProject, hs]
    · cases hs : st.projectSpec <;> simp [planProject, hs]
  · intro m input envD sstr plan hval hsp
    unfold developNextTask
    rw [hval]
    simp [hsp, mockRepo, devFail]

/-- Witness for the amended C3 on the concrete failing environment and a
development cycle handed the mock repository. -/
theorem c3_repo_failures_absorbed_witness :
    manageRepository genStateW repoEnvFailW
        = { genStateW with repo := some mockRepo }
  ∧ generateIdea genStateW .badJson
        = { genStateW with projectSpec := some (generateIdeaFallbackSpec genStateW) }
  ∧ planProject genStateW .badJson
        = { genStateW with plan := some planProjectFallback }
  ∧ (∀ m input envD sstr plan,
        validateDevState input = some (sstr, plan, mockRepo) →
        envD.specParses = true →
        (developNextTask m input envD).result = .error "No valid repository found") :=
  c3_repo_failures_absorbed genStateW repoEnvFailW .badJson .badJson
    specPayloadW 500 "server error" (by rfl) (by rfl) (by rfl) (by rfl)
    (by intro s h; cases h) (by intro p h; cases h)

/-- C7, counterexample: a title with no alphanumeric character slugs to
the empty string, which cannot match a pattern requiring one to one
hundred characters. -/
theorem c7_counterexample :
    repoSlug "!!!" = "" ∧ (repoSlug "!!!").length = 0 := by
  constructor <;> decide

/-- C7, amended: for every spec title containing at least one character
that lowercases to an ASCII letter or digit, and whose uncapped slug has
at most one hundred characters (so the cap cannot cut at a hyphen), the
derived repository name is nonempty, at most one hundred characters,
drawn from lowercase letters, digits and hyphen, and has no leading,
trailing or duplicate hyphens; in particular the title of the spec
example slugs to my-cool-app-20. -/
theorem c7_slug_generation (title : String)
    (halnum : (title.toList.map Char.toLower).any isLowerAlnum = true)
    (hlen : (repoSlugCore title).length ≤ 100) :
    repoSlug title ≠ ""
  ∧ (repoSlug title).length ≤ 100
  ∧ (∀ c ∈ (repoSlug title).toList, isLowerAlnum c = true ∨ c = '-')
  ∧ (repoSlug title).toList.head? ≠ some '-'
  ∧ (repoSlug title).toList.getLast? ≠ some '-'
  ∧ hasAdjPair (fun z => z == '-') (repoSlug title).toList = false
  ∧ repoSlug "My Cool App!! 2.0" = "my-cool-app-20" := by
  have htake : (repoSlugCore title).take 100 = repoSlugCore title :=
    List.take_of_length_le hlen
  have hslug : (repoSlug title).toList = repoSlugCore title := by
    have h0 : (repoSlug title).toList = (repoSlugCore title).take 100 := rfl
    rw [h0, htake]
  have hlist : repoSlug title = String.mk (repoSlugCore title) := by
    have h0 : repoSlug title = String.mk ((repoSlugCore title).take 100) := rfl
    rw [h0, htake]
  -- the pipeline stages
  have hAdj4 : hasAdjPair (fun z => z == '-')
      (collapseRuns (fun z => z == '-') '-'
        (collapseRuns isJsSpace '-'
          ((title.toList.map Char.toLower).filter isSlugKeep))) = false :=
    (collapseRunsAux_noAdj (fun z => z == '-') '-' _ false).2
  have hAdj4p : hasAdjPair (fun z => z == '-')
      (dropOneLeading '-'
        (collapseRuns (fun z => z == '-') '-'
          (collapseRuns isJsSpace '-'
            ((title.toList.map Char.toLower).filter isSlugKeep)))) = false :=
    hasAdjPair_dropOneLeading _ '-' _ hAdj4
  have hAdj5 : hasAdjPair (fun z => z == '-') (repoSlugCore title) = false :=
    hasAdjPair_dropOneTrailing _ '-' _ hAdj4p
  -- an alphanumeric survivor
  obtain ⟨c0, hc0mem, hc0⟩ :
      ∃ c0 ∈ title.toList.map Char.toLower, isLowerAlnum c0 = true :=
    List.any_eq_true.mp halnum
  have hc0ne : c0 ≠ '-' := by
    intro e
    have h1 := alnum_not_hyphen c0 hc0
    rw [e] at h1
    simp at h1
  have h2 : c0 ∈ (title.toList.map Char.toLower).filter isSlugKeep :=
    List.mem_filter.mpr ⟨hc0mem, by simp [isSlugKeep, hc0]⟩
  have h3 : c0 ∈ collapseRuns isJsSpace '-'
      ((title.toList.map Char.toLower).filter isSlugKeep) :=
    collapseRunsAux_mem_of isJsSpace '-' _ false c0 h2 (alnum_not_space c0 hc0)
  have h4 : c0 ∈ collapseRuns (fun z => z == '-') '-'
      (collapseRuns isJsSpace '-'
        ((title.toList.map Char.toLower).filter isSlugKeep)) :=
    collapseRunsAux_mem_of _ '-' _ false c0 h3 (alnum_not_hyphen c0 hc0)
  have h4p : c0 ∈ dropOneLeading '-'
      (collapseRuns (fun z => z == '-') '-'
        (collapseRuns isJsSpace '-'
          ((title.toList.map Char.toLower).filter isSlugKeep))) :=
    dropOneLeading_mem '-' _ c0 h4 hc0ne
  have h5 : c0 ∈ repoSlugCore title :=
    dropOneTrailing_mem '-' _ c0 h4p hc0ne
  have hne5 : repoSlugCore title ≠ [] := List.ne_nil_of_mem h5
  -- head of the slug core
  have hheadp : ∀ x, (dropOneLeading '-'
      (collapseRuns (fun z => z == '-') '-'
        (collapseRuns isJsSpace '-'
          ((title.toList.map Char.toLower).filter isSlugKeep)))).head? = some x →
      (x == '-') = false :=
    dropOneLeading_head_not '-' _ hAdj4
  have hhead5 : ∀ x, (repoSlugCore title).head? = some x → (x == '-') = false := by
    intro x hx
    have hcore : repoSlugCore title
        = dropOneTrailing '-' (dropOneLeading '-'
            (collapseRuns (fun z => z == '-') '-'
              (collapseRuns isJsSpace '-'
                ((title.toList.map Char.toLower).filter isSlugKeep)))) := rfl
    rw [hcore, dropOneTrailing_eq] at hx
    by_cases hc : (dropOneLeading '-'
        (collapseRuns (fun z => z == '-') '-'
          (collapseRuns isJsSpace '-'
            ((title.toList.map Char.toLower).filter isSlugKeep)))).getLast?
          = some '-'
    · rw [if_pos hc] at hx
      exact hheadp x (head?_dropLast _ x hx)
    · rw [if_neg hc] at hx
      exact hheadp x hx
  have hlast5 : ∀ x, (repoSlugCore title).getLast? = some x → (x == '-') = false := by
    intro x hx
    have hcore : repoSlugCore title
        = dropOneTrailing '-' (dropOneLeading '-'
            (collapseRuns (fun z => z == '-') '-'
              (collapseRuns isJsSpace '-'
                ((title.toList.map Char.toLower).filter isSlugKeep)))) := rfl
    rw [hcore, dropOneTrailing_eq] at hx
    by_cases hc : (dropOneLeading '-'
        (collapseRuns (fun z => z == '-') '-'
          (collapseRuns isJsSpace '-'
            ((title.toList.map Char.toLower).filter isSlugKeep)))).getLast?
          = some '-'
    · rw [if_pos hc] at hx
      exact dropLast_getLast_not _ _ '-' hAdj4p hc (by rfl) x hx
    · rw [if_neg hc] at hx
      cases hxc : (x == '-') with
      | false => rfl
      | true =>
        exfalso
        have : x = '-' := by simpa using hxc
        subst this
        exact hc hx
  refine ⟨?_, ?_, ?_, ?_, ?_, ?_, by decide⟩
  · rw [hlist]
    intro h
    exact hne5 (congrArg String.data h)
  · have h0 : (repoSlug title).length = ((repoSlugCore title).take 100).length := rfl
    rw [h0, htake]
    exact hlen
  · intro c hc
    rw [hslug] at hc
    -- classify through the pipeline
    have hx4 : c ∈ collapseRuns (fun z => z == '-') '-'
        (collapseRuns isJsSpace '-'
          ((title.toList.map Char.toLower).filter isSlugKeep)) :=
      dropOneLeading_subset '-' _ c (dropOneTrailing_subset '-' _ c hc)
    rcases collapseRunsAux_mem _ '-' _ false c hx4 with rfl | ⟨hx3, hpx⟩
    · exact Or.inr rfl
    · rcases collapseRunsAux_mem _ '-' _ false c hx3 with rfl | ⟨hx2, hsp⟩
      · exact Or.inr rfl
      · have hkeep : isSlugKeep c = true := List.of_mem_filter hx2
        left
        simp only [isSlugKeep, hsp, hpx, Bool.or_false] at hkeep
        exact hkeep
  · rw [hslug]
    intro heq
    have := hhead5 '-' heq
    simp at this
  · rw [hslug]
    intro heq
    have := hlast5 '-' heq
    simp at this
  · rw [hslug]
    exact hAdj5

/-- Witness for the amended C7 on the concrete example title. -/
theorem c7_slug_generation_witness :
    repoSlug "My Cool App!! 2.0" ≠ ""
  ∧ (repoSlug "My Cool App!! 2.0").length ≤ 100
  ∧ (∀ c ∈ (repoSlug "My Cool App!! 2.0").toList, isLowerAlnum c = true ∨ c = '-')
  ∧ (repoSlug "My Cool App!! 2.0").toList.head? ≠ some '-'
  ∧ (repoSlug "My Cool App!! 2.0").toList.getLast? ≠ some '-'
  ∧ hasAdjPair (fun z => z == '-') (repoSlug "My Cool App!! 2.0").toList = false
  ∧ repoSlug "My Cool App!! 2.0" = "my-cool-app-20" :=
  c7_slug_generation "My Cool App!! 2.0" (by decide) (by decide)

/-- C8, counterexample: only a single leading dot-slash segment is
stripped (the anchored replace is not global), so a path starting with
two of them keeps one; the survivor also contains a dot, so the fallback
extension is not appended either, and the result is neither the
claimed dot-segment-free path nor an extension-bearing one. -/
theorem c8_counterexample :
    normalizeFilePath "././notes" "some task" = "./notes"
  ∧ normalizeFilePath "././notes" "some task" ≠ "notes.js" := by
  constructor <;> decide

/-- C8, amended: target-path normalization strips leading slashes and a
single leading dot-slash segment, collapses duplicate slashes, maps bare
directory names (a trailing-slash path to its index file, frontend and
backend to their main files) and appends the .js fallback extension to
paths containing no dot anywhere; the result never begins with a slash;
in particular the three spec examples evaluate as claimed. -/
theorem c8_path_normalization :
    normalizeFilePath "/src//utils/" "some task" = "src/utils/index.js"
  ∧ normalizeFilePath "backend" "some task" = "backend/src/main.js"
  ∧ normalizeFilePath "notes" "some task" = "notes.js"
  ∧ ∀ p t, (normalizeFilePath p t).toList.head? ≠ some '/' := by
  refine ⟨by decide, by decide, by decide, ?_⟩
  intro p t heq
  unfold normalizeFilePath at heq
  by_cases hz : (dropEdgeRuns isSlash (collapseRuns isSlash '/'
      (let p4 := jsTrim (match collapseRuns isSlash '/' (p.toList.dropWhile isSlash) with
                 | '.' :: '/' :: rest => rest
                 | l => l);
       let p5 :=
         if endsWithSlash p4 || p4 == "root".toList || p4 == "frontend".toList
             || p4 == "backend".toList then
           if p4 == "root".toList || p4 == ([] : List Char) then "src/main.js".toList
           else if p4 == "frontend".toList then "frontend/src/main.js".toList
           else if p4 == "backend".toList then "backend/src/main.js".toList
           else dropOneTrailing '/' p4 ++ "/index.js".toList
         else p4;
       if p5.contains '.' then p5 else p5 ++ ".js".toList))).length = 0
  · rw [if_pos hz] at heq
    have h1 : (String.mk ("src/".toList
        ++ collapseRuns isJsSpace '-' (t.toList.map Char.toLower)
        ++ ".js".toList)).toList.head? = some 's' := by
      rw [show ∀ m : List Char, (String.mk m).toList = m from fun _ => rfl]
      rw [List.head?_append, List.head?_append]
      rfl
    rw [h1] at heq
    simp at heq
  · rw [if_neg hz] at heq
    have := dropEdgeRuns_head_not isSlash _ '/' heq
    simp [isSlash] at this

/-- C9: after a successful development cycle for the head task t, the
new remaining-task queue is the old queue filtered of every task whose
title equals the title of t, relative order preserved; in particular no
task left in the queue carries that title, so a duplicate-titled entry
is removed together with the head. -/
theorem c9_success_removes_every_matching_title (m : Memory) (input : DevInput)
    (env : DevEnv) (sstr : String) (plan : Plan) (repo : Repo) (t : Task)
    (rest : List Task)
    (hval : validateDevState input = some (sstr, plan, repo))
    (hsp : env.specParses = true)
    (hrepo : (repo.name == "" || repo.url == "" || repo.name == "mock-repo") = false)
    (hq : m.state.remainingTasks = t :: rest)
    (hcontent : (env.content == "" || env.content.length < 10) = false)
    (htok : env.hasToken = true)
    (hsha : ∀ st msg, env.shaLookup ≠ ShaLookup.failure st msg)
    (hcom : env.commit = .ok ()) :
    (developNextTask m input env).mem.state.remainingTasks
        = m.state.remainingTasks.filter (fun x => x.title != t.title)
  ∧ (∀ x ∈ (developNextTask m input env).mem.state.remainingTasks,
        x.title ≠ t.title)
  ∧ (developNextTask m input env).result
        = .ok (.committed t.title
            (m.state.remainingTasks.filter (fun x => x.title != t.title)).length
            (normalizeFilePath t.filePath t.title)
            (if hasNonCodePattern env.content && env.content.length < 200 then
              env.retryContent else env.content)
            ("feat: implement " ++ t.title)) := by
  have hfilter : (t :: rest).filter (fun x => x.title != t.title)
      = rest.filter (fun x => x.title != t.title) := by
    simp [List.filter]
  have hqueue : (developNextTask m input env).mem.state.remainingTasks
      = m.state.remainingTasks.filter (fun x => x.title != t.title) := by
    unfold developNextTask
    rw [hval]
    rcases hsl : env.shaLookup with sha | _ | ⟨st, msg⟩
    · by_cases hz : rest.filter (fun x => x.title != t.title) = [] <;>
        simp [hsp, hrepo, getRemainingTasks_local, hq, selectCurrentTask,
          hcontent, htok, hsl, hcom, hfilter, hz,
          MemoryService.updateRemainingTasks, MemoryService.saveTaskProgress,
          MemoryService.markProjectCompleted, List.length_eq_zero]
    · by_cases hz : rest.filter (fun x => x.title != t.title) = [] <;>
        simp [hsp, hrepo, getRemainingTasks_local, hq, selectCurrentTask,
          hcontent, htok, hsl, hcom, hfilter, hz,
          MemoryService.updateRemainingTasks, MemoryService.saveTaskProgress,
          MemoryService.markProjectCompleted, List.length_eq_zero]
    · exact absurd hsl (hsha st msg)
  refine ⟨hqueue, ?_, ?_⟩
  · intro x hx
    rw [hqueue] at hx
    have := List.of_mem_filter hx
    simpa using this
  · unfold developNextTask
    rw [hval]
    rcases hsl : env.shaLookup with sha | _ | ⟨st, msg⟩
    · simp [hsp, hrepo, getRemainingTasks_local, hq, selectCurrentTask,
        hcontent, htok, hsl, hcom, hfilter]
    · simp [hsp, hrepo, getRemainingTasks_local, hq, selectCurrentTask,
        hcontent, htok, hsl, hcom, hfilter]
    · exact absurd hsl (hsha st msg)

/-- Witness for C9 on the concrete duplicate-titled queue: the head
sampleTask and the duplicate sampleTaskDup (which shares its title) are
both removed by one successful cycle, leaving only sampleTask2. -/
theorem c9_success_removes_every_matching_title_witness :
    (developNextTask devMemW devInputW devEnvOkW).mem.state.remainingTasks
        = [sampleTask2]
  ∧ (∀ x ∈ (developNextTask devMemW devInputW devEnvOkW).mem.state.remainingTasks,
        x.title ≠ sampleTask.title) := by
  have h := c9_success_removes_every_matching_title devMemW devInputW devEnvOkW
    "spec-json" { tasks := [sampleTask, sampleTaskDup, sampleTask2] } sampleRepo
    sampleTask [sampleTaskDup, sampleTask2]
    (by decide) (by decide) (by decide) (by decide) (by decide) (by decide)
    (by intro st msg hx; simp [devEnvOkW, devEnvConflictW] at hx) (by rfl)
  exact ⟨h.1.trans (by decide), h.2.1⟩

/-- C10: whenever the manual trigger reaches the development cycle, the
scheduler is running at that moment, and when the scheduler was stopped
at the call the trigger has first started it, registering the daily
job; a manual trigger therefore never executes the cycle with the
scheduler stopped. -/
theorem c10_manual_trigger_starts_scheduler (s : SchedState) (v c : Bool)
    (s1 : SchedState)
    (h : CronScheduler.triggerManualCycle s v c = .ranCycle s1) :
    s1.isRunning = true
  ∧ (s.isRunning = false → s1.jobs.contains "dailyDevelopment" = true) := by
  cases hs : s.isRunning <;> cases hv : v <;> cases hc : c <;>
    simp [CronScheduler.triggerManualCycle, CronScheduler.start, hs, hv, hc] at h <;>
    subst h <;>
    simp [hs, mapSet_mem, mapSet_contains]

/-- Witness for C10: triggering with the scheduler stopped, a valid
schedule and an uncompleted project runs the cycle with the running flag
set and the daily job registered. -/
theorem c10_manual_trigger_starts_scheduler_witness :
    ({ isRunning := true, jobs := ["dailyDevelopment"] } : SchedState).isRunning = true
  ∧ (({ isRunning := false, jobs := [] } : SchedState).isRunning = false →
      ({ isRunning := true, jobs := ["dailyDevelopment"] } : SchedState).jobs.contains
        "dailyDevelopment" = true) :=
  c10_manual_trigger_starts_scheduler ⟨false, []⟩ true false
    ⟨true, ["dailyDevelopment"]⟩ (by decide)

end GitAgent

